import Mathlib

set_option maxRecDepth 4000

/-!
Verification of the feedback-agent core (src/main.py) against its
natural-language specification.

Modelling conventions:
* Machine strings are Lean `String`s; Python `s[:n]` is `String.take s n`.
* Calendar dates are modelled as abstract day numbers (`Option Int`); `none`
  models a missing or unparseable date string.  Canonical ISO date strings
  compare lexicographically exactly as their day numbers compare, and the
  empty string (missing date) sorts below every date, which the `Option Int`
  order mirrors.
* `hashlib.sha256(...).hexdigest()` is modelled as an abstract hash
  function `hash : String → String` passed as a parameter; statements that
  need collision-freeness assume `Function.Injective hash` explicitly.
* Ratings are exact rationals (`Option ℚ`); `none` models a missing or
  non-numeric `rating` field (Python raises and the record is skipped).
* File-system effects are modelled by explicit state passing: `load`
  receives the parse outcome of the history file, `save` returns the list
  that would be written, and the tiered resolver returns the cache state
  after the run alongside its three results.
-/

/-- Review record as built by the scrapers and stored in the history file
(src/main.py lines 286-291 and 303-307): keys `store`, `app`, `rating`,
`text`, `date`, `id`, `reply`. -/
structure Record where
  store : String
  app : String
  rating : Option ℚ
  text : String
  date : Option Int
  id : String
  reply : Bool
deriving DecidableEq, Repr

/-- The four fields read by `generate_id` via `review.get` (src/main.py
line 76): `text`, `date`, `app`, `store`, each defaulting to the empty
string.  The call sites pass ad-hoc dicts, so this is a separate shape
from `Record`. -/
structure IdInput where
  text : String
  date : String
  app : String
  store : String
deriving DecidableEq, Repr

/-- Embeds the f-string of src/main.py line 76:
`f"{review.get('text','')[:50]}{review.get('date','')}{review.get('app','')}{review.get('store','')}"`. -/
def unique_string (review : IdInput) : String :=
  review.text.take 50 ++ review.date ++ review.app ++ review.store

/-- Embeds `generate_id` (src/main.py lines 75-77).  SHA-256 hex digest is
abstracted as the `hash` parameter. -/
def generate_id (hash : String → String) (review : IdInput) : String :=
  hash (unique_string review)

/-- Decimal digit string of a natural number; stand-in printer used when a
stored record needs its date rendered back to a string. -/
def natStr (n : Nat) : String :=
  if _h : n < 10 then String.singleton (Char.ofNat (48 + n))
  else natStr (n / 10) ++ String.singleton (Char.ofNat (48 + n % 10))
decreasing_by
  exact Nat.div_lt_self (by omega) (by omega)

/-- Renders a modelled date back to the date string stored in the record:
`none` (missing date) becomes the empty string, a day number becomes a
nonempty digit string. -/
def fmtDate : Option Int → String
  | none => ""
  | some d => if d < 0 then "-" ++ natStr d.natAbs else natStr d.natAbs

theorem natStr_ne_empty (n : Nat) : natStr n ≠ "" := by
  rw [natStr]
  split
  · intro h
    have hd := congrArg String.data h
    simp [String.singleton] at hd
  · intro h
    have hd := congrArg String.data h
    rw [String.data_append] at hd
    have : (String.singleton (Char.ofNat (48 + n % 10))).data = [] :=
      (List.append_eq_nil.mp hd).2
    simp [String.singleton] at this

theorem fmtDate_some_ne_empty (d : Int) : fmtDate (some d) ≠ "" := by
  simp only [fmtDate]
  split
  · intro h
    have hd := congrArg String.data h
    rw [String.data_append] at hd
    have h2 := (List.append_eq_nil.mp hd).1
    simp at h2
  · exact natStr_ne_empty _

theorem string_eq_of_data_eq {a b : String} (h : a.data = b.data) : a = b := by
  cases a
  cases b
  exact congrArg String.mk h

theorem data_cancel_left {a b b' : List Char} (h : a ++ b = a ++ b') : b = b' :=
  List.append_cancel_left h

theorem data_cancel_right {a a' b : List Char} (h : a ++ b = a' ++ b) : a = a' :=
  List.append_cancel_right h

/-- C6: `generate_id` is a pure deterministic function of exactly the four
fields text-prefix-50, date, app (product) and store (source), concatenated
in that order and hashed; records agreeing on the four fields get the same
id, and changing any single one of the four fields (the others fixed)
changes the hashed input string `unique_string`. -/
theorem generate_id_four_fields (hash : String → String) (r1 r2 : IdInput) :
    (r1.text.take 50 = r2.text.take 50 → r1.date = r2.date → r1.app = r2.app →
      r1.store = r2.store → generate_id hash r1 = generate_id hash r2)
    ∧ (r1.date = r2.date → r1.app = r2.app → r1.store = r2.store →
      r1.text.take 50 ≠ r2.text.take 50 → unique_string r1 ≠ unique_string r2)
    ∧ (r1.text.take 50 = r2.text.take 50 → r1.app = r2.app → r1.store = r2.store →
      r1.date ≠ r2.date → unique_string r1 ≠ unique_string r2)
    ∧ (r1.text.take 50 = r2.text.take 50 → r1.date = r2.date → r1.store = r2.store →
      r1.app ≠ r2.app → unique_string r1 ≠ unique_string r2)
    ∧ (r1.text.take 50 = r2.text.take 50 → r1.date = r2.date → r1.app = r2.app →
      r1.store ≠ r2.store → unique_string r1 ≠ unique_string r2) := by
  refine ⟨?_, ?_, ?_, ?_, ?_⟩
  · intro h1 h2 h3 h4
    unfold generate_id unique_string
    rw [h1, h2, h3, h4]
  · intro h2 h3 h4 hne heq
    apply hne
    have hd := congrArg String.data heq
    simp only [unique_string, String.data_append] at hd
    rw [h2, h3, h4] at hd
    exact string_eq_of_data_eq (data_cancel_right (data_cancel_right (data_cancel_right hd)))
  · intro h1 h3 h4 hne heq
    apply hne
    have hd := congrArg String.data heq
    simp only [unique_string, String.data_append] at hd
    rw [h1, h3, h4] at hd
    exact string_eq_of_data_eq
      (data_cancel_left (data_cancel_right (data_cancel_right hd)))
  · intro h1 h2 h4 hne heq
    apply hne
    have hd := congrArg String.data heq
    simp only [unique_string, String.data_append] at hd
    rw [h1, h2, h4] at hd
    exact string_eq_of_data_eq (data_cancel_left (data_cancel_right hd))
  · intro h1 h2 h3 hne heq
    apply hne
    have hd := congrArg String.data heq
    simp only [unique_string, String.data_append] at hd
    rw [h1, h2, h3] at hd
    exact string_eq_of_data_eq (data_cancel_left hd)

/-- Witness for C6 at concrete inputs: determinism on two records agreeing
on the four fields (texts differing only after character 50), and a changed
date changing the hashed input string. -/
theorem generate_id_four_fields_witness :
    generate_id id ⟨"short text", "2024-01-01", "Nordkurier", "ios"⟩
        = generate_id id ⟨"short text", "2024-01-01", "Nordkurier", "ios"⟩
    ∧ unique_string ⟨"short text", "2024-01-01", "Nordkurier", "ios"⟩
        ≠ unique_string ⟨"short text", "2024-01-02", "Nordkurier", "ios"⟩ := by
  constructor
  · exact (generate_id_four_fields id ⟨"short text", "2024-01-01", "Nordkurier", "ios"⟩
      ⟨"short text", "2024-01-01", "Nordkurier", "ios"⟩).1 rfl rfl rfl rfl
  · exact (generate_id_four_fields id ⟨"short text", "2024-01-01", "Nordkurier", "ios"⟩
      ⟨"short text", "2024-01-02", "Nordkurier", "ios"⟩).2.2.1 rfl rfl rfl (by decide)

/-- History dict fingerprint → record, modelled as an association list in
insertion order (Python dicts preserve insertion order). -/
abbrev HistMap := List (String × Record)

/-- Python `k in dict`. -/
def hasKey (m : HistMap) (k : String) : Bool :=
  m.any (fun p => p.1 == k)

/-- Python `dict[k] = r`: overwrite in place if the key exists, else append. -/
def setKey (m : HistMap) (k : String) (r : Record) : HistMap :=
  if hasKey m k then m.map (fun p => if p.1 == k then (k, r) else p)
  else m ++ [(k, r)]

/-- Parse outcome of the on-disk history file: the file can be absent,
fail to parse as JSON, or yield a list of items; each parsed item carries
a flag for whether the raw JSON object has an `id` key. -/
inductive HistoryFile where
  | missing
  | unparsable
  | parsed (items : List (Bool × Record))

/-- Embeds `load_history` (src/main.py lines 79-86): missing file or any
parse exception yields the empty dict; otherwise the dict comprehension
keeps items having an `id` key, keyed by that id (later duplicates
overwrite earlier ones, as in a Python dict comprehension). -/
def load_history : HistoryFile → HistMap
  | .missing => []
  | .unparsable => []
  | .parsed items => items.foldl (fun m p => if p.1 then setKey m p.2.id p.2 else m) []

theorem mem_setKey {m : HistMap} {k : String} {r : Record} {p : String × Record}
    (h : p ∈ setKey m k r) : p ∈ m ∨ p = (k, r) := by
  unfold setKey at h
  split at h
  · rcases List.mem_map.mp h with ⟨q, hq, he⟩
    by_cases hc : q.1 == k
    · simp only [hc, if_true] at he
      right; exact he.symm
    · simp only [hc, Bool.false_eq_true, if_false] at he
      left; exact he ▸ hq
  · rcases List.mem_append.mp h with h | h
    · left; exact h
    · right; simpa using h

theorem load_history_aux_keys :
    ∀ (items : List (Bool × Record)) (m : HistMap),
      (∀ p ∈ m, p.1 = p.2.id) →
      ∀ p ∈ items.foldl (fun m p => if p.1 then setKey m p.2.id p.2 else m) m,
        p.1 = p.2.id := by
  intro items
  induction items with
  | nil => intro m hm p hp; exact hm p hp
  | cons it rest ih =>
    intro m hm p hp
    simp only [List.foldl_cons] at hp
    refine ih _ ?_ p hp
    intro q hq
    by_cases hb : it.1
    · simp only [hb, if_true] at hq
      rcases mem_setKey hq with h | h
      · exact hm q h
      · subst h; rfl
    · simp only [hb, Bool.false_eq_true, if_false] at hq
      exact hm q hq

/-- C8: `load_history` is a total function of the file state (it never
raises): a missing file and a parse failure both yield the empty map, and
a successfully parsed list yields a map keyed by each record's own id. -/
theorem load_history_total :
    load_history .missing = []
    ∧ load_history .unparsable = []
    ∧ ∀ (items : List (Bool × Record)) (p : String × Record),
        p ∈ load_history (.parsed items) → p.1 = p.2.id := by
  refine ⟨rfl, rfl, ?_⟩
  intro items p hp
  exact load_history_aux_keys items [] (by intro q hq; cases hq) p hp

/-- Sample record used by the concrete witnesses. -/
def sampleRecord : Record :=
  { store := "ios", app := "Nordkurier", rating := some 5, text := "Gute Inhalte",
    date := some 20000, id := "fp1", reply := false }

/-- Witness for C8: a parsed one-element file loads to the map keyed by the
record's id. -/
theorem load_history_total_witness :
    (sampleRecord.id, sampleRecord) ∈ load_history (.parsed [(true, sampleRecord)])
    ∧ (sampleRecord.id, sampleRecord).1 = (sampleRecord.id, sampleRecord).2.id := by
  constructor
  · simp [load_history, setKey, hasKey, sampleRecord]
  · exact load_history_total.2.2 [(true, sampleRecord)] (sampleRecord.id, sampleRecord)
      (by simp [load_history, setKey, hasKey, sampleRecord])

/-- Comparison of modelled dates mirroring string comparison of the stored
date fields: canonical ISO date strings compare like their day numbers and
the empty string (missing date) is least. -/
def dateLe : Option Int → Option Int → Bool
  | none, _ => true
  | some _, none => false
  | some a, some b => a ≤ b

/-- Embeds `save_history` (src/main.py lines 88-92): the persisted list is
the dict values sorted by `date` descending.  The source performs no
truncation of this list. -/
def save_history (history_dict : HistMap) : List Record :=
  (history_dict.map Prod.snd).mergeSort (fun a b => dateLe b.date a.date)

/-- History map holding 1001 distinct records. -/
def bigHistory : HistMap :=
  (List.range 1001).map
    (fun i => (natStr i, { sampleRecord with id := natStr i, date := some (i : Int) }))

/-- Counterexample to C1: saving a 1001-record history persists all 1001
records; the persisted list is not capped at 1000. -/
theorem save_history_no_truncation : 1000 < (save_history bigHistory).length := by
  have h : (save_history bigHistory).length = 1001 := by
    unfold save_history bigHistory
    rw [List.length_mergeSort, List.length_map, List.length_map, List.length_range]
  omega

theorem dateLe_total (a b : Option Int) : (dateLe a b || dateLe b a) = true := by
  cases a <;> cases b <;> simp [dateLe]
  exact Int.le_total _ _

theorem dateLe_trans (a b c : Option Int) (h1 : dateLe a b = true)
    (h2 : dateLe b c = true) : dateLe a c = true := by
  cases a <;> cases b <;> cases c <;> simp_all [dateLe]
  omega

/-- C1 (amended): `save_history` persists exactly the map's records (a
permutation of the dict values), sorted by date descending, with no
truncation: the persisted list always has exactly as many records as the
map, regardless of the 1000-record retention bound stated by the spec. -/
theorem save_history_sorted_desc (m : HistMap) :
    (save_history m).Perm (m.map Prod.snd)
    ∧ List.Pairwise (fun a b : Record => dateLe b.date a.date = true) (save_history m)
    ∧ (save_history m).length = m.length := by
  refine ⟨List.mergeSort_perm _ _, ?_, ?_⟩
  · exact List.sorted_mergeSort
      (fun a b c hab hbc => dateLe_trans c.date b.date a.date hbc hab)
      (fun a b => dateLe_total b.date a.date) _
  · rw [save_history, List.length_mergeSort, List.length_map]

/-- One step of the merge loop in `get_fresh_reviews` (src/main.py lines
318-320): a scraped record whose id is already a key of the history dict
is silently dropped; otherwise it is inserted and also appended to the
list of new records. -/
def mergeStep (p : HistMap × List Record) (r : Record) : HistMap × List Record :=
  if hasKey p.1 r.id then p else (p.1 ++ [(r.id, r)], p.2 ++ [r])

/-- Embeds the merge loop of `get_fresh_reviews` (src/main.py lines
311-321) over an already-loaded history map and the concatenated freshly
scraped batch. -/
def merge_fresh (hist : HistMap) (fresh : List Record) : HistMap × List Record :=
  fresh.foldl mergeStep (hist, [])

/-- Records produced as new by a sequential merge of `fresh` into `m`. -/
def newOf (m : HistMap) : List Record → List Record
  | [] => []
  | r :: rs => if hasKey m r.id then newOf m rs else r :: newOf (m ++ [(r.id, r)]) rs

theorem hasKey_append (m l : HistMap) (k : String) :
    hasKey (m ++ l) k = (hasKey m k || hasKey l k) :=
  List.any_append

theorem merge_hasKey_mono :
    ∀ (fresh : List Record) (m : HistMap) (acc : List Record) (k : String),
      hasKey m k = true → hasKey (fresh.foldl mergeStep (m, acc)).1 k = true := by
  intro fresh
  induction fresh with
  | nil => intro m acc k h; exact h
  | cons r rs ih =>
    intro m acc k h
    simp only [List.foldl_cons]
    by_cases hk : hasKey m r.id
    · simp only [mergeStep, hk, if_true]
      exact ih m acc k h
    · simp only [mergeStep, hk, Bool.false_eq_true, if_false]
      refine ih _ _ k ?_
      rw [hasKey_append, h, Bool.true_or]

theorem merge_mem_hasKey :
    ∀ (fresh : List Record) (m : HistMap) (acc : List Record) (r : Record),
      r ∈ fresh → hasKey (fresh.foldl mergeStep (m, acc)).1 r.id = true := by
  intro fresh
  induction fresh with
  | nil => intro m acc r h; cases h
  | cons a rs ih =>
    intro m acc r h
    simp only [List.foldl_cons]
    rcases List.mem_cons.mp h with h | h
    · subst h
      by_cases hk : hasKey m r.id
      · simp only [mergeStep, hk, if_true]
        exact merge_hasKey_mono rs m acc r.id hk
      · simp only [mergeStep, hk, Bool.false_eq_true, if_false]
        refine merge_hasKey_mono rs _ _ r.id ?_
        rw [hasKey_append, Bool.or_eq_true]
        right
        simp [hasKey]
    · by_cases hk : hasKey m a.id
      · simp only [mergeStep, hk, if_true]
        exact ih m acc r h
      · simp only [mergeStep, hk, Bool.false_eq_true, if_false]
        exact ih _ _ r h

theorem merge_all_present :
    ∀ (fresh : List Record) (m : HistMap) (acc : List Record),
      (∀ r ∈ fresh, hasKey m r.id = true) → fresh.foldl mergeStep (m, acc) = (m, acc) := by
  intro fresh
  induction fresh with
  | nil => intro m acc _; rfl
  | cons a rs ih =>
    intro m acc h
    simp only [List.foldl_cons]
    have ha : hasKey m a.id = true := h a (List.mem_cons_self a rs)
    simp only [mergeStep, ha, if_true]
    exact ih m acc (fun r hr => h r (List.mem_cons_of_mem a hr))

theorem merge_new_absent :
    ∀ (fresh : List Record) (m : HistMap) (acc : List Record) (r : Record),
      r ∈ (fresh.foldl mergeStep (m, acc)).2 → r ∈ acc ∨ hasKey m r.id = false := by
  intro fresh
  induction fresh with
  | nil => intro m acc r h; exact Or.inl h
  | cons a rs ih =>
    intro m acc r h
    simp only [List.foldl_cons] at h
    by_cases hk : hasKey m a.id
    · simp only [mergeStep, hk, if_true] at h
      exact ih m acc r h
    · simp only [mergeStep, hk, Bool.false_eq_true, if_false] at h
      rcases ih _ _ r h with h2 | h2
      · rcases List.mem_append.mp h2 with h3 | h3
        · exact Or.inl h3
        · right
          rw [List.mem_singleton.mp h3]
          exact Bool.not_eq_true _ ▸ hk
      · right
        rw [hasKey_append, Bool.or_eq_false_iff] at h2
        exact h2.1

theorem merge_eq_newOf :
    ∀ (fresh : List Record) (m : HistMap) (acc : List Record),
      fresh.foldl mergeStep (m, acc)
        = (m ++ (newOf m fresh).map (fun r => (r.id, r)), acc ++ newOf m fresh) := by
  intro fresh
  induction fresh with
  | nil => intro m acc; simp [newOf]
  | cons a rs ih =>
    intro m acc
    simp only [List.foldl_cons]
    by_cases hk : hasKey m a.id
    · simp only [mergeStep, hk, if_true, newOf]
      exact ih m acc
    · simp only [mergeStep, hk, Bool.false_eq_true, if_false, newOf]
      rw [ih]
      simp [List.append_assoc]

/-- C7: the merge loop reports as new exactly the records whose fingerprint
is not yet a key (processed sequentially, as the spec itself describes),
inserts exactly those, leaves every fresh fingerprint present afterwards,
and re-merging the same batch into the resulting map yields the map
unchanged and zero new records. -/
theorem merge_fresh_spec (hist : HistMap) (fresh : List Record) :
    (∀ r ∈ (merge_fresh hist fresh).2, hasKey hist r.id = false)
    ∧ (merge_fresh hist fresh).1
        = hist ++ ((merge_fresh hist fresh).2).map (fun r => (r.id, r))
    ∧ (∀ r ∈ fresh, hasKey (merge_fresh hist fresh).1 r.id = true)
    ∧ merge_fresh (merge_fresh hist fresh).1 fresh = ((merge_fresh hist fresh).1, []) := by
  refine ⟨?_, ?_, ?_, ?_⟩
  · intro r hr
    rcases merge_new_absent fresh hist [] r hr with h | h
    · cases h
    · exact h
  · have h := merge_eq_newOf fresh hist []
    rw [merge_fresh, h]
    simp
  · intro r hr
    exact merge_mem_hasKey fresh hist [] r hr
  · exact merge_all_present fresh _ []
      (fun r hr => merge_mem_hasKey fresh hist [] r hr)

/-- Witness for C7: merging a one-record batch into the empty history and
re-merging it reports zero new records and leaves the map unchanged. -/
theorem merge_fresh_spec_witness :
    merge_fresh (merge_fresh [] [sampleRecord]).1 [sampleRecord]
        = ((merge_fresh [] [sampleRecord]).1, [])
    ∧ hasKey (merge_fresh [] [sampleRecord]).1 sampleRecord.id = true := by
  constructor
  · exact (merge_fresh_spec [] [sampleRecord]).2.2.2
  · exact (merge_fresh_spec [] [sampleRecord]).2.2.1 sampleRecord (by simp)

/-- Round-half-to-even of a rational, as Python `round` on an exact value. -/
def rhe (y : ℚ) : Int :=
  if y - ⌊y⌋ < 1/2 then ⌊y⌋
  else if 1/2 < y - ⌊y⌋ then ⌊y⌋ + 1
  else if ⌊y⌋ % 2 = 0 then ⌊y⌋ else ⌊y⌋ + 1

/-- Python `round(x, 2)` on an exact rational value. -/
def round2 (x : ℚ) : ℚ := (rhe (100 * x) : ℚ) / 100

/-- The per-record step building `dated_reviews` (src/main.py lines
126-131): the record contributes its parsed date and rating when both
parse and the text is non-empty (Python truthiness of `r.get('text')`). -/
def datedFn (r : Record) : Option (Int × ℚ) :=
  match r.date, r.rating with
  | some d, some q => if r.text = "" then none else some (d, q)
  | _, _ => none

/-- Ratings collected into `breakdown[app][store]` (src/main.py lines
133-134): date and rating must parse; the text may be empty. -/
def breakdownRatings (reviews : List Record) (app store : String) : List ℚ :=
  reviews.filterMap (fun r =>
    match r.date, r.rating with
    | some _, some q => if r.app = app ∧ r.store = store then some q else none
    | _, _ => none)

/-- The rounded average of src/main.py lines 143 and 149: 0.0 on an empty
list. -/
def avgOf (l : List ℚ) : ℚ :=
  if l = [] then 0 else round2 (l.sum / l.length)

/-- Embeds the inner `get_avg` of `calculate_trends` (src/main.py lines
140-143): ratings of dated reviews at or after the cutoff, averaged. -/
def get_avg (dated_reviews : List (Int × ℚ)) (today days : Int) : ℚ :=
  let f := (dated_reviews.filter (fun p => today - days ≤ p.1)).map Prod.snd
  if f = [] then 0 else round2 (f.sum / f.length)

/-- Result shape of `calculate_trends` (src/main.py lines 152-159); the
breakdown dict is rendered as a list of (app, ios average, android
average) rows for its two fixed apps. -/
structure Trends where
  overall : ℚ
  last_7d : ℚ
  last_30d : ℚ
  breakdown : List (String × ℚ × ℚ)
  ios_total : Nat
  android_total : Nat
deriving DecidableEq, Repr

/-- Embeds `calculate_trends` (src/main.py lines 110-159).  Note the early
return at line 137-138 zeroes the store totals even though they were
counted. -/
def calculate_trends (reviews : List Record) (today : Int) : Trends :=
  let ios_total := reviews.countP (fun r => r.store == "ios")
  let android_total := reviews.countP (fun r => r.store == "android")
  let dated_reviews := reviews.filterMap datedFn
  if dated_reviews = [] then
    { overall := 0, last_7d := 0, last_30d := 0, breakdown := [],
      ios_total := 0, android_total := 0 }
  else
    { overall := round2 ((dated_reviews.map Prod.snd).sum / dated_reviews.length),
      last_7d := get_avg dated_reviews today 7,
      last_30d := get_avg dated_reviews today 30,
      breakdown :=
        [("Nordkurier", avgOf (breakdownRatings reviews "Nordkurier" "ios"),
          avgOf (breakdownRatings reviews "Nordkurier" "android")),
         ("Schwäbische", avgOf (breakdownRatings reviews "Schwäbische" "ios"),
          avgOf (breakdownRatings reviews "Schwäbische" "android"))],
      ios_total := ios_total,
      android_total := android_total }

/-- Stated from the claim: the ratings of the qualifying records (text
present, date and rating parseable) whose date is at or after the cutoff. -/
def windowRatings (reviews : List Record) (cutoff : Int) : List ℚ :=
  reviews.filterMap (fun r =>
    match r.date, r.rating with
    | some d, some q =>
        if r.text = "" then none else if cutoff ≤ d then some q else none
    | _, _ => none)

/-- Stated from the claim: sum of ratings over count, rounded to 2
decimals; 0.0 for an empty window. -/
def windowAvg (reviews : List Record) (cutoff : Int) : ℚ :=
  let f := windowRatings reviews cutoff
  if f = [] then 0 else round2 (f.sum / f.length)

/-- Stated from the claim: all qualifying ratings with no window cutoff. -/
def overallRatings (reviews : List Record) : List ℚ :=
  reviews.filterMap (fun r =>
    match r.date, r.rating with
    | some _, some q => if r.text = "" then none else some q
    | _, _ => none)

/-- Stated from the claim: overall average with 0.0 on no data. -/
def overallAvg (reviews : List Record) : ℚ :=
  let f := overallRatings reviews
  if f = [] then 0 else round2 (f.sum / f.length)

theorem windowRatings_eq (reviews : List Record) (c : Int) :
    ((reviews.filterMap datedFn).filter (fun p => decide (c ≤ p.1))).map Prod.snd
      = windowRatings reviews c := by
  rw [List.filter_filterMap, List.map_filterMap, windowRatings]
  congr 1
  funext r
  cases hdate : r.date <;> cases hrat : r.rating <;>
    simp [datedFn, hdate, hrat, Option.filter]
  rename_i d q
  by_cases ht : r.text = ""
  · simp [ht]
  · by_cases hc : c ≤ d
    · simp [ht, hc]
    · simp [ht, hc]

theorem overallRatings_eq (reviews : List Record) :
    (reviews.filterMap datedFn).map Prod.snd = overallRatings reviews := by
  rw [List.map_filterMap, overallRatings]
  congr 1
  funext r
  cases hdate : r.date <;> cases hrat : r.rating <;>
    simp [datedFn, hdate, hrat]
  by_cases ht : r.text = ""
  · simp [ht]
  · simp [ht]

theorem trends_proj (reviews : List Record) (today : Int)
    (hd : reviews.filterMap datedFn ≠ []) :
    (calculate_trends reviews today).last_7d = get_avg (reviews.filterMap datedFn) today 7
    ∧ (calculate_trends reviews today).last_30d = get_avg (reviews.filterMap datedFn) today 30
    ∧ (calculate_trends reviews today).overall
        = round2 (((reviews.filterMap datedFn).map Prod.snd).sum
            / ((reviews.filterMap datedFn).length : ℚ)) := by
  refine ⟨?_, ?_, ?_⟩ <;> simp [calculate_trends, hd]

theorem trends_empty (reviews : List Record) (today : Int)
    (hd : reviews.filterMap datedFn = []) :
    calculate_trends reviews today
      = { overall := 0, last_7d := 0, last_30d := 0, breakdown := [],
          ios_total := 0, android_total := 0 } := by
  simp [calculate_trends, hd]

theorem get_avg_eq_windowAvg (reviews : List Record) (today days : Int) :
    get_avg (reviews.filterMap datedFn) today days = windowAvg reviews (today - days) := by
  simp only [get_avg, windowAvg]
  rw [windowRatings_eq]

/-- C9: the 7-day and 30-day trend averages equal the sum of the
qualifying ratings inside the window divided by their count, rounded to
2 decimals, with an empty window reporting 0.0; and on the two-record
scenario of the claim (rating 5 today, rating 1 ten days ago) the
averages are 5.0, 3.0 and 3.0. -/
theorem calculate_trends_window_avgs (reviews : List Record) (today : Int) :
    (calculate_trends reviews today).last_7d = windowAvg reviews (today - 7)
    ∧ (calculate_trends reviews today).last_30d = windowAvg reviews (today - 30)
    ∧ (calculate_trends reviews today).overall = overallAvg reviews
    ∧ (windowRatings reviews (today - 7) = [] →
        (calculate_trends reviews today).last_7d = 0)
    ∧ (∀ r1 r2 : Record, r1.date = some today → r1.rating = some 5 → r1.text ≠ "" →
        r2.date = some (today - 10) → r2.rating = some 1 → r2.text ≠ "" →
        (calculate_trends [r1, r2] today).last_7d = 5
        ∧ (calculate_trends [r1, r2] today).last_30d = 3
        ∧ (calculate_trends [r1, r2] today).overall = 3) := by
  have main7 : (calculate_trends reviews today).last_7d = windowAvg reviews (today - 7) := by
    by_cases hd : reviews.filterMap datedFn = []
    · have hw : windowRatings reviews (today - 7) = [] := by
        rw [← windowRatings_eq, hd]
        rfl
      rw [trends_empty reviews today hd]
      simp [windowAvg, hw]
    · rw [(trends_proj reviews today hd).1, get_avg_eq_windowAvg]
  refine ⟨main7, ?_, ?_, ?_, ?_⟩
  · by_cases hd : reviews.filterMap datedFn = []
    · have hw : windowRatings reviews (today - 30) = [] := by
        rw [← windowRatings_eq, hd]
        rfl
      rw [trends_empty reviews today hd]
      simp [windowAvg, hw]
    · rw [(trends_proj reviews today hd).2.1, get_avg_eq_windowAvg]
  · by_cases hd : reviews.filterMap datedFn = []
    · have hw : overallRatings reviews = [] := by
        rw [← overallRatings_eq, hd]
        rfl
      rw [trends_empty reviews today hd]
      simp [overallAvg, hw]
    · have hw : overallRatings reviews ≠ [] := by
        rw [← overallRatings_eq]
        simpa using hd
      rw [(trends_proj reviews today hd).2.2]
      simp only [overallAvg, if_neg hw]
      rw [← overallRatings_eq, List.length_map]
  · intro hw
    rw [main7]
    simp [windowAvg, hw]
  · intro r1 r2 hd1 hr1 ht1 hd2 hr2 ht2
    have hdated : [r1, r2].filterMap datedFn = [(today, 5), (today - 10, 1)] := by
      simp [datedFn, hd1, hr1, hd2, hr2, ht1, ht2]
    have hne : [r1, r2].filterMap datedFn ≠ [] := by
      rw [hdated]
      simp
    have c1 : today - 7 ≤ today := by omega
    have c2 : ¬ (today - 7 ≤ today - 10) := by omega
    have c3 : today - 30 ≤ today := by omega
    have c4 : today - 30 ≤ today - 10 := by omega
    have hf7 : List.filter (fun p => decide (today - 7 ≤ p.1))
        [(today, (5:ℚ)), (today - 10, 1)] = [(today, 5)] := by
      simp only [List.filter_cons, List.filter_nil, decide_eq_true_eq]
      rw [if_pos c1, if_neg c2]
    have hf30 : List.filter (fun p => decide (today - 30 ≤ p.1))
        [(today, (5:ℚ)), (today - 10, 1)] = [(today, 5), (today - 10, 1)] := by
      simp only [List.filter_cons, List.filter_nil, decide_eq_true_eq]
      rw [if_pos c3, if_pos c4]
    refine ⟨?_, ?_, ?_⟩
    · rw [(trends_proj [r1, r2] today hne).1]
      simp only [get_avg, hdated]
      rw [hf7]
      simp only [List.map_cons, List.map_nil, List.sum_cons, List.sum_nil,
        List.length_cons, List.length_nil]
      norm_num [round2, rhe]
    · rw [(trends_proj [r1, r2] today hne).2.1]
      simp only [get_avg, hdated]
      rw [hf30]
      simp only [List.map_cons, List.map_nil, List.sum_cons, List.sum_nil,
        List.length_cons, List.length_nil]
      rw [if_neg (by simp : ¬([5, 1] : List ℚ) = [])]
      norm_num [round2, rhe]
    · rw [(trends_proj [r1, r2] today hne).2.2]
      rw [hdated]
      simp only [List.map_cons, List.map_nil, List.sum_cons, List.sum_nil,
        List.length_cons, List.length_nil]
      norm_num [round2, rhe]

/-- Witness for C9: the claim scenario evaluated at a concrete day
number. -/
theorem calculate_trends_window_avgs_witness :
    (calculate_trends
        [{ sampleRecord with date := some 20000, rating := some 5 },
         { sampleRecord with date := some 19990, rating := some 1 }] 20000).last_7d = 5
    ∧ (calculate_trends
        [{ sampleRecord with date := some 20000, rating := some 5 },
         { sampleRecord with date := some 19990, rating := some 1 }] 20000).last_30d = 3
    ∧ (calculate_trends
        [{ sampleRecord with date := some 20000, rating := some 5 },
         { sampleRecord with date := some 19990, rating := some 1 }] 20000).overall = 3 :=
  (calculate_trends_window_avgs
      [{ sampleRecord with date := some 20000, rating := some 5 },
       { sampleRecord with date := some 19990, rating := some 1 }] 20000).2.2.2.2
    { sampleRecord with date := some 20000, rating := some 5 }
    { sampleRecord with date := some 19990, rating := some 1 }
    (by decide) (by decide) (by decide) (by decide) (by decide) (by decide)

/-- One step of the sentiment tally of `prepare_chart_data` (src/main.py
lines 171-173): rating at least 4 is positive, at most 2 negative, else
neutral; counts are (pos, neg, neu). -/
def tally (c : Nat × Nat × Nat) (q : ℚ) : Nat × Nat × Nat :=
  if 4 ≤ q then (c.1 + 1, c.2.1, c.2.2)
  else if q ≤ 2 then (c.1, c.2.1 + 1, c.2.2)
  else (c.1, c.2.1, c.2.2 + 1)

/-- Effect of one review on one stats entry (src/main.py lines 167-173):
the entry is bumped only when the review has a date equal to the entry key
and a rating; otherwise the entry is untouched. -/
def applyReview (r : Record) (p : Int × Nat × Nat × Nat) : Int × Nat × Nat × Nat :=
  match r.date, r.rating with
  | some d, some q => if p.1 = d then (p.1, tally p.2 q) else p
  | _, _ => p

/-- The zero-initialized per-day stats dict (src/main.py lines 163-166):
one entry per day of the trailing window, each starting at zeros. -/
def initStats (today : Int) (days : Nat) : List (Int × Nat × Nat × Nat) :=
  (List.range days).map (fun (i : Nat) => (today - (i : Int), (0, 0, 0)))

/-- Folding one review into the stats dict; a review whose date is not a
key of the dict (or missing, or with a missing rating) changes nothing. -/
def addReview (stats : List (Int × Nat × Nat × Nat)) (r : Record) :
    List (Int × Nat × Nat × Nat) :=
  stats.map (applyReview r)

/-- Output shape of `prepare_chart_data` (src/main.py line 176); labels
are the window days sorted ascending (the code sorts the canonical ISO
date keys, which orders exactly as the day numbers; the final `%d.%m.`
presentational reformatting of each label is dropped). -/
structure ChartData where
  labels : List Int
  pos : List Nat
  neg : List Nat
  neu : List Nat
deriving DecidableEq, Repr

/-- Python `stats[d]` on the stats dict. -/
def lookupStats (stats : List (Int × Nat × Nat × Nat)) (d : Int) : Nat × Nat × Nat :=
  ((stats.find? (fun p => p.1 == d)).map Prod.snd).getD (0, 0, 0)

/-- Embeds `prepare_chart_data` (src/main.py lines 161-176). -/
def prepare_chart_data (reviews : List Record) (today : Int) (days : Nat := 14) :
    ChartData :=
  let stats := reviews.foldl addReview (initStats today days)
  let labels := (stats.map Prod.fst).mergeSort (fun a b => decide (a ≤ b))
  { labels := labels
    pos := labels.map (fun d => (lookupStats stats d).1)
    neg := labels.map (fun d => (lookupStats stats d).2.1)
    neu := labels.map (fun d => (lookupStats stats d).2.2) }

/-- Review counted as positive for day `d` (date equal, rating ≥ 4). -/
def posAt (d : Int) (r : Record) : Bool :=
  match r.date, r.rating with
  | some d2, some q => d2 == d && decide (4 ≤ q)
  | _, _ => false

/-- Review counted as negative for day `d` (date equal, rating ≤ 2 and
not ≥ 4). -/
def negAt (d : Int) (r : Record) : Bool :=
  match r.date, r.rating with
  | some d2, some q => d2 == d && !(decide (4 ≤ q)) && decide (q ≤ 2)
  | _, _ => false

/-- Review counted as neutral for day `d` (date equal, rating neither ≥ 4
nor ≤ 2). -/
def neuAt (d : Int) (r : Record) : Bool :=
  match r.date, r.rating with
  | some d2, some q => d2 == d && !(decide (4 ≤ q)) && !(decide (q ≤ 2))
  | _, _ => false

theorem foldl_addReview (rs : List Record) :
    ∀ (l : List (Int × Nat × Nat × Nat)),
      rs.foldl addReview l = l.map (fun p => rs.foldl (fun q r => applyReview r q) p) := by
  induction rs with
  | nil => intro l; simp
  | cons r rs ih =>
    intro l
    simp only [List.foldl_cons, addReview, ih, List.map_map]
    rfl

theorem entry_fold (e : Int) :
    ∀ (rs : List Record) (c : Nat × Nat × Nat),
      rs.foldl (fun q r => applyReview r q) (e, c)
        = (e, (c.1 + rs.countP (posAt e), c.2.1 + rs.countP (negAt e),
               c.2.2 + rs.countP (neuAt e))) := by
  intro rs
  induction rs with
  | nil => intro c; simp
  | cons r rs ih =>
    intro c
    simp only [List.foldl_cons, List.countP_cons]
    cases hdate : r.date with
    | none =>
      rw [show applyReview r (e, c) = (e, c) from by simp [applyReview, hdate]]
      rw [ih c]
      simp [posAt, negAt, neuAt, hdate, Prod.ext_iff]
    | some d =>
      cases hrat : r.rating with
      | none =>
        rw [show applyReview r (e, c) = (e, c) from by simp [applyReview, hdate, hrat]]
        rw [ih c]
        simp [posAt, negAt, neuAt, hdate, hrat, Prod.ext_iff]
      | some q =>
        by_cases he : e = d
        · subst he
          rw [show applyReview r (e, c) = (e, tally c q) from by
            simp [applyReview, hdate, hrat]]
          rw [ih (tally c q)]
          by_cases h4 : (4:ℚ) ≤ q
          · simp [tally, posAt, negAt, neuAt, hdate, hrat, h4, Prod.ext_iff]
            omega
          · by_cases h2 : q ≤ 2
            · simp [tally, posAt, negAt, neuAt, hdate, hrat, h4, h2, Prod.ext_iff]
              omega
            · simp [tally, posAt, negAt, neuAt, hdate, hrat, h4, h2, Prod.ext_iff]
              omega
        · rw [show applyReview r (e, c) = (e, c) from by
            simp [applyReview, hdate, hrat, he]]
          rw [ih c]
          have hne : (d == e) = false := by
            simp only [beq_eq_false_iff_ne, ne_eq]
            exact fun h => he h.symm
          simp [posAt, negAt, neuAt, hdate, hrat, hne, Prod.ext_iff]

theorem stats_closed (reviews : List Record) (today : Int) (days : Nat) :
    reviews.foldl addReview (initStats today days)
      = ((List.range days).map (fun (i : Nat) => today - (i : Int))).map
          (fun k => (k, (reviews.countP (posAt k), reviews.countP (negAt k),
                         reviews.countP (neuAt k)))) := by
  rw [foldl_addReview]
  simp only [initStats, List.map_map]
  apply List.map_congr_left
  intro i _
  simp only [Function.comp_apply]
  rw [entry_fold]
  simp

theorem find?_assoc_of_mem {β : Type} (g : Int → β) :
    ∀ (ks : List Int) (d : Int), d ∈ ks →
      (ks.map (fun k => (k, g k))).find? (fun p => p.1 == d) = some (d, g d) := by
  intro ks
  induction ks with
  | nil => intro d h; cases h
  | cons k ks ih =>
    intro d h
    simp only [List.map_cons, List.find?_cons]
    by_cases hk : k = d
    · subst hk
      simp
    · have hb : (k == d) = false := by
        simp only [beq_eq_false_iff_ne, ne_eq]
        exact hk
      simp only [hb]
      rcases List.mem_cons.mp h with h2 | h2
      · exact absurd h2.symm hk
      · exact ih d h2

theorem chart_labels (reviews : List Record) (today : Int) (days : Nat) :
    (prepare_chart_data reviews today days).labels
      = ((List.range days).map (fun (i : Nat) => today - (i : Int))).reverse := by
  have hkeys : (reviews.foldl addReview (initStats today days)).map Prod.fst
      = (List.range days).map (fun (i : Nat) => today - (i : Int)) := by
    rw [stats_closed]
    simp [List.map_map, Function.comp_def]
  show ((reviews.foldl addReview (initStats today days)).map Prod.fst).mergeSort
      (fun a b => decide (a ≤ b)) = _
  rw [hkeys]
  apply @List.eq_of_perm_of_sorted Int (fun a b : Int => a ≤ b) _ _ _
  · exact (List.mergeSort_perm _ _).trans (List.reverse_perm _).symm
  · have hp := @List.sorted_mergeSort Int (fun a b : Int => decide (a ≤ b))
      (fun a b c hab hbc => by
        simp only [decide_eq_true_eq] at *
        omega)
      (fun a b => by
        rcases Int.le_total a b with h | h <;> simp [h])
      ((List.range days).map (fun (i : Nat) => today - (i : Int)))
    exact hp.imp (fun h => of_decide_eq_true h)
  · rw [List.Sorted, List.pairwise_reverse, List.pairwise_map]
    exact (List.pairwise_lt_range days).imp (fun h => by omega)

theorem sentiment_false (d : Int) (r : Record) (h : r.date ≠ some d) :
    posAt d r = false ∧ negAt d r = false ∧ neuAt d r = false := by
  cases hdate : r.date with
  | none => simp [posAt, negAt, neuAt, hdate]
  | some d2 =>
    have hb : (d2 == d) = false := by
      simp only [beq_eq_false_iff_ne, ne_eq]
      intro he
      exact h (by rw [hdate, he])
    cases hrat : r.rating <;> simp [posAt, negAt, neuAt, hdate, hrat, hb]

/-- C10: the daily sentiment bucketing returns exactly `days` labels, one
per calendar day of the trailing window in ascending order; the pos, neg
and neu series are exactly the per-day counts of reviews with rating ≥ 4,
≤ 2, and in between, so a day with no reviews reports explicit zeros. -/
theorem prepare_chart_data_buckets (reviews : List Record) (today : Int) (days : Nat) :
    (prepare_chart_data reviews today days).labels
        = ((List.range days).map (fun (i : Nat) => today - (i : Int))).reverse
    ∧ (prepare_chart_data reviews today days).labels.length = days
    ∧ (prepare_chart_data reviews today days).pos
        = ((List.range days).map (fun (i : Nat) => today - (i : Int))).reverse.map
            (fun d => reviews.countP (posAt d))
    ∧ (prepare_chart_data reviews today days).neg
        = ((List.range days).map (fun (i : Nat) => today - (i : Int))).reverse.map
            (fun d => reviews.countP (negAt d))
    ∧ (prepare_chart_data reviews today days).neu
        = ((List.range days).map (fun (i : Nat) => today - (i : Int))).reverse.map
            (fun d => reviews.countP (neuAt d))
    ∧ ∀ d : Int, (∀ r ∈ reviews, r.date ≠ some d) →
        reviews.countP (posAt d) = 0 ∧ reviews.countP (negAt d) = 0
          ∧ reviews.countP (neuAt d) = 0 := by
  have hlab := chart_labels reviews today days
  have hlook : ∀ d ∈ ((List.range days).map (fun (i : Nat) => today - (i : Int))).reverse,
      lookupStats (reviews.foldl addReview (initStats today days)) d
        = (reviews.countP (posAt d), reviews.countP (negAt d), reviews.countP (neuAt d)) := by
    intro d hd
    rw [List.mem_reverse] at hd
    rw [lookupStats, stats_closed, find?_assoc_of_mem _ _ d hd]
    rfl
  have hpos : (prepare_chart_data reviews today days).pos
      = ((List.range days).map (fun (i : Nat) => today - (i : Int))).reverse.map
          (fun d => reviews.countP (posAt d)) := by
    show ((prepare_chart_data reviews today days).labels).map _ = _
    rw [hlab]
    apply List.map_congr_left
    intro d hd
    rw [hlook d hd]
  have hneg : (prepare_chart_data reviews today days).neg
      = ((List.range days).map (fun (i : Nat) => today - (i : Int))).reverse.map
          (fun d => reviews.countP (negAt d)) := by
    show ((prepare_chart_data reviews today days).labels).map _ = _
    rw [hlab]
    apply List.map_congr_left
    intro d hd
    rw [hlook d hd]
  have hneu : (prepare_chart_data reviews today days).neu
      = ((List.range days).map (fun (i : Nat) => today - (i : Int))).reverse.map
          (fun d => reviews.countP (neuAt d)) := by
    show ((prepare_chart_data reviews today days).labels).map _ = _
    rw [hlab]
    apply List.map_congr_left
    intro d hd
    rw [hlook d hd]
  refine ⟨hlab, ?_, hpos, hneg, hneu, ?_⟩
  · rw [hlab]
    simp
  · intro d hd
    have hz : ∀ (p : Record → Bool), (∀ r ∈ reviews, p r = false) →
        reviews.countP p = 0 := by
      intro p hp
      rw [List.countP_eq_zero]
      intro a ha
      simp [hp a ha]
    exact ⟨hz _ (fun r hr => (sentiment_false d r (hd r hr)).1),
      hz _ (fun r hr => (sentiment_false d r (hd r hr)).2.1),
      hz _ (fun r hr => (sentiment_false d r (hd r hr)).2.2)⟩

/-- Witness for C10: a 3-day window over one review dated on day 20000
has ascending labels and explicit zero counts on the empty day 19999. -/
theorem prepare_chart_data_buckets_witness :
    (prepare_chart_data [sampleRecord] 20000 3).labels = [19998, 19999, 20000]
    ∧ [sampleRecord].countP (posAt 19999) = 0
    ∧ [sampleRecord].countP (negAt 19999) = 0
    ∧ [sampleRecord].countP (neuAt 19999) = 0 := by
  refine ⟨?_, ?_⟩
  · rw [(prepare_chart_data_buckets [sampleRecord] 20000 3).1]
    decide
  · exact (prepare_chart_data_buckets [sampleRecord] 20000 3).2.2.2.2.2 19999 (by decide)

/-- The stop-word set of src/main.py lines 51-70 (a Python set literal;
repeated entries are harmless). -/
def STOP_WORDS : List String :=
  ["die", "der", "das", "den", "dem", "des", "ein", "eine", "einer", "eines", "einem", "einen",
   "ich", "du", "er", "sie", "es", "wir", "ihr", "sie", "mich", "mir", "meine", "meiner", "mein",
   "sich", "uns", "euch", "ihnen", "ihrem", "ihres", "dieser", "diese", "dieses", "diesen",
   "und", "oder", "aber", "als", "wenn", "dass", "weil", "denn", "ob", "wie", "wo", "was",
   "in", "im", "an", "am", "auf", "aus", "bei", "beim", "mit", "nach", "von", "vom", "zu", "zum", "zur",
   "über", "unter", "vor", "hinter", "neben", "durch", "für", "gegen", "ohne", "um", "wegen", "seit",
   "ist", "sind", "war", "wäre", "wird", "werden", "wurde", "haben", "hat", "hatte", "habe", "gibt",
   "kann", "können", "konnte", "muss", "müssen", "musste", "soll", "sollen", "sollte", "will", "wollen",
   "geht", "ging", "lassen", "lässt", "machen", "macht", "getan", "sehen", "sieht", "schon", "nun",
   "nicht", "nichts", "nie", "wieder", "immer", "oft", "selten", "manchmal", "erst", "bereits",
   "noch", "jetzt", "heute", "damals", "hier", "da", "dort", "mal", "einmal", "viel", "sehr", "auch",
   "ganz", "gar", "mehr", "weniger", "nur", "doch", "etwas", "so", "dann", "wann", "warum", "wer",
   "einfach", "leider", "halt", "eben", "wohl", "zwar", "vielleicht", "bestimmt", "bitte", "danke",
   "app", "apps", "anwendung", "version", "update", "updates", "ios", "android", "handy", "tablet",
   "telefon", "iphone", "ipad", "samsung", "pixel", "gerät", "geräte", "nutzer", "kunde", "kunden",
   "schwäbische", "nordkurier", "zeitung", "artikel", "lesen", "leser", "hallo", "moin", "tag",
   "also", "alle", "alles", "viele", "zeit", "seit", "wochen", "monaten", "tagen", "jahre", "sterne", "stern",
   "läuft", "funktioniert", "problem", "probleme", "fehler", "stürzt", "absturz"]

/-- Python `str.lower` restricted to ASCII letters and the German umlauts
appearing in this corpus. -/
def lowerChar (c : Char) : Char :=
  if c = 'Ä' then 'ä' else if c = 'Ö' then 'ö' else if c = 'Ü' then 'ü' else c.toLower

/-- Python `str.upper` on the first character of `str.capitalize`. -/
def upperChar (c : Char) : Char :=
  if c = 'ä' then 'Ä' else if c = 'ö' then 'Ö' else if c = 'ü' then 'Ü' else c.toUpper

def lowerStr (s : String) : String := String.mk (s.data.map lowerChar)

/-- A character kept by the cleanup regexes of src/main.py lines 191 and
204 (word characters; umlauts and ß are word characters in Python's
unicode `\w`). -/
def isWordChar (c : Char) : Bool :=
  c.isAlphanum || c = '_' || c = 'ä' || c = 'ö' || c = 'ü' || c = 'ß'

def cleanChars (s : String) : String :=
  String.mk (s.data.filter (fun c => isWordChar c || c.isWhitespace))

/-- Python `str.split()`: split on whitespace dropping empty pieces. -/
def splitWords (s : String) : List String :=
  (s.split (fun c => c.isWhitespace)).filter (fun w => w ≠ "")

def tokenize (s : String) : List String := splitWords (cleanChars (lowerStr s))

/-- Python `str.capitalize`. -/
def capitalize (s : String) : String :=
  match s.data with
  | [] => ""
  | c :: cs => String.mk (upperChar c :: cs.map lowerChar)

/-- Distinct elements in first-occurrence order (Counter insertion order). -/
def firstOccurrences (l : List String) : List String :=
  l.foldl (fun acc w => if acc.contains w then acc else acc ++ [w]) []

/-- Python `Counter(l).most_common(n)`: by count descending, ties in
insertion order (stable sort). -/
def mostCommon (l : List String) (n : Nat) : List (String × Nat) :=
  (((firstOccurrences l).map (fun w => (w, l.count w))).mergeSort
    (fun a b => decide (b.2 ≤ a.2))).take n

/-- Embeds `get_local_buzzwords` (src/main.py lines 188-198): adjacent
word pairs of the joined lowercased cleaned text, both words longer than
4 and outside the stop-word set, capitalized and counted, top 12. -/
def bigramPairs : List String → List String
  | w1 :: w2 :: rest =>
      (if 4 < w1.length ∧ 4 < w2.length
          ∧ ¬ STOP_WORDS.contains w1 ∧ ¬ STOP_WORDS.contains w2
       then [capitalize w1 ++ " " ++ capitalize w2] else []) ++ bigramPairs (w2 :: rest)
  | _ => []

def get_local_buzzwords (reviews : List Record) : List (String × Nat) :=
  let blob := lowerStr (String.intercalate " " (reviews.map (fun r => r.text)))
  mostCommon (bigramPairs (splitWords (cleanChars blob))) 12

/-- Embeds `get_local_topics` (src/main.py lines 200-206): most frequent
five sufficiently long non-stop-words, capitalized; a fixed fallback label
when nothing qualifies. -/
def get_local_topics (texts : List String) : List String :=
  let words := texts.flatMap (fun t =>
    (tokenize t).filter (fun w => ¬ STOP_WORDS.contains w ∧ 5 < w.length))
  let common := (mostCommon words 5).map (fun p => capitalize p.1)
  if common = [] then ["Allgemeines Feedback"] else common

theorem get_local_topics_ne_nil (texts : List String) : get_local_topics texts ≠ [] := by
  simp only [get_local_topics]
  split
  · simp
  · assumption

/-- Analysis cache entry as written by `save_analysis_cache` at src/main.py
lines 253-260: always carries all five content keys and a date. -/
structure CacheEntry where
  topics : List String
  buzzwords : List (String × Nat)
  summary : String
  topReviews : List Record
  bottomReviews : List Record
  date : String
deriving DecidableEq, Repr

/-- The third component returned by `get_ai_data_hybrid` (src/main.py
line 273). -/
structure KiData where
  summary : String
  topReviews : List Record
  bottomReviews : List Record
deriving DecidableEq, Repr

/-- Parsed payload of the second remote call (src/main.py lines 242-248),
with the `.get` defaults already applied. -/
structure DeepResult where
  topics : List String
  summary : String
  topReviews : List Record
  bottomReviews : List Record
deriving DecidableEq, Repr

/-- Outcome of the remote interaction of src/main.py lines 220-264; the
prompt construction (lines 222-248) only feeds the external model and is
abstracted into the outcome.  `noModel` is the unconfigured-model path
(line 220); `failFirst` is an exception in or around the first call;
`failSecond buzz` is a first call parsed to `buzz` followed by an
exception in the second call; `success` is both calls parsed. -/
inductive RemoteOutcome where
  | noModel
  | failFirst
  | failSecond (buzz : List (String × Nat))
  | success (buzz : List (String × Nat)) (deep : DeepResult)
deriving DecidableEq, Repr

/-- Embeds `get_ai_data_hybrid` (src/main.py lines 208-273) with the file
system state-passed: the input cache is the parsed analysis-cache file
(`none` models the empty dict of a missing or corrupt file), and the
fourth component of the result is the cache state after the run
(`save_analysis_cache` at line 261 runs only on full remote success). -/
def get_ai_data_hybrid (reviews : List Record) (cache : Option CacheEntry)
    (remote : RemoteOutcome) (today : String) :
    List String × List (String × Nat) × KiData × Option CacheEntry :=
  let result_topics := match cache with | none => [] | some c => c.topics
  let result_buzzwords := match cache with | none => [] | some c => c.buzzwords
  let result_summary := match cache with
    | none => "Keine Analyse verfügbar." | some c => c.summary
  let result_top := match cache with | none => [] | some c => c.topReviews
  let result_bottom := match cache with | none => [] | some c => c.bottomReviews
  let afterRemote :=
    match remote with
    | .noModel =>
        (result_topics, result_buzzwords, result_summary, result_top, result_bottom, cache)
    | .failFirst =>
        (result_topics, result_buzzwords, result_summary, result_top, result_bottom, cache)
    | .failSecond buzz =>
        (result_topics, buzz, result_summary, result_top, result_bottom, cache)
    | .success buzz deep =>
        (deep.topics, buzz, deep.summary, deep.topReviews, deep.bottomReviews,
         some { topics := deep.topics, buzzwords := buzz, summary := deep.summary,
                topReviews := deep.topReviews, bottomReviews := deep.bottomReviews,
                date := today })
  match afterRemote with
  | (t, b, s, top, bot, c) =>
      let b2 := if b = [] then get_local_buzzwords reviews else b
      let t2 := if t = [] then get_local_topics ((reviews.take 50).map (fun r => r.text)) else t
      (t2, b2, { summary := s, topReviews := top, bottomReviews := bot }, c)

/-- Cache entry with empty topics, used to refute the verbatim-cache
claim. -/
def cexCache : CacheEntry :=
  { topics := [], buzzwords := [("Anmeldung Fehler", 3)], summary := "s",
    topReviews := [], bottomReviews := [], date := "2025-01-01" }

/-- Counterexample to C4 as stated: with the remote call failing and the
cache holding an entry whose `topics` list is empty, the resolver does not
return that entry's topics verbatim; the empty list falls through to the
local heuristic. -/
theorem resolver_not_verbatim :
    (get_ai_data_hybrid [] (some cexCache) RemoteOutcome.noModel "2025-01-02").1
      ≠ cexCache.topics := by
  have h : (get_ai_data_hybrid [] (some cexCache) RemoteOutcome.noModel "2025-01-02").1
      = get_local_topics [] := by
    simp [get_ai_data_hybrid, cexCache]
  have h2 : cexCache.topics = [] := rfl
  rw [h, h2]
  exact get_local_topics_ne_nil []

/-- C4 (amended): on every remote outcome short of full success, with a
cached entry X the resolver returns X's summary and highlight lists
verbatim; it returns X's topics exactly when non-empty and the local
heuristic topics otherwise; on the no-model and first-call-failure paths
it returns X's buzzwords exactly when non-empty and the local heuristic
buzzwords otherwise, while on the second-call-failure path the parsed
buzzwords of the first call replace the cached ones even when those are
non-empty (local heuristic if that parse was empty); and with both remote
and cache empty the returned topics are the local heuristic topics, which
are always non-empty. -/
theorem resolver_tiers (reviews : List Record) (today : String) :
    (∀ (X : CacheEntry) (remote : RemoteOutcome),
      (remote = RemoteOutcome.noModel ∨ remote = RemoteOutcome.failFirst
        ∨ ∃ B, remote = RemoteOutcome.failSecond B) →
      (get_ai_data_hybrid reviews (some X) remote today).2.2.1
        = { summary := X.summary, topReviews := X.topReviews,
            bottomReviews := X.bottomReviews })
    ∧ (∀ (X : CacheEntry) (remote : RemoteOutcome),
      (remote = RemoteOutcome.noModel ∨ remote = RemoteOutcome.failFirst
        ∨ ∃ B, remote = RemoteOutcome.failSecond B) →
      X.topics ≠ [] →
      (get_ai_data_hybrid reviews (some X) remote today).1 = X.topics)
    ∧ (∀ (X : CacheEntry) (remote : RemoteOutcome),
      (remote = RemoteOutcome.noModel ∨ remote = RemoteOutcome.failFirst
        ∨ ∃ B, remote = RemoteOutcome.failSecond B) →
      X.topics = [] →
      (get_ai_data_hybrid reviews (some X) remote today).1
        = get_local_topics ((reviews.take 50).map (fun r => r.text)))
    ∧ (∀ (X : CacheEntry) (remote : RemoteOutcome),
      (remote = RemoteOutcome.noModel ∨ remote = RemoteOutcome.failFirst) →
      X.buzzwords ≠ [] →
      (get_ai_data_hybrid reviews (some X) remote today).2.1 = X.buzzwords)
    ∧ (∀ (X : CacheEntry) (remote : RemoteOutcome),
      (remote = RemoteOutcome.noModel ∨ remote = RemoteOutcome.failFirst) →
      X.buzzwords = [] →
      (get_ai_data_hybrid reviews (some X) remote today).2.1
        = get_local_buzzwords reviews)
    ∧ (∀ (X : CacheEntry) (B : List (String × Nat)), B ≠ [] →
      (get_ai_data_hybrid reviews (some X) (RemoteOutcome.failSecond B) today).2.1 = B)
    ∧ (∀ (X : CacheEntry) (B : List (String × Nat)), B = [] →
      (get_ai_data_hybrid reviews (some X) (RemoteOutcome.failSecond B) today).2.1
        = get_local_buzzwords reviews)
    ∧ (∀ (remote : RemoteOutcome),
      (remote = RemoteOutcome.noModel ∨ remote = RemoteOutcome.failFirst
        ∨ ∃ B, remote = RemoteOutcome.failSecond B) →
      (get_ai_data_hybrid reviews none remote today).1
        = get_local_topics ((reviews.take 50).map (fun r => r.text))
      ∧ get_local_topics ((reviews.take 50).map (fun r => r.text)) ≠ []) := by
  refine ⟨?_, ?_, ?_, ?_, ?_, ?_, ?_, ?_⟩
  · intro X remote hrem
    rcases hrem with h | h | ⟨B, h⟩ <;> subst h <;> simp [get_ai_data_hybrid]
  · intro X remote hrem ht
    rcases hrem with h | h | ⟨B, h⟩ <;> subst h <;> simp [get_ai_data_hybrid, ht]
  · intro X remote hrem ht
    rcases hrem with h | h | ⟨B, h⟩ <;> subst h <;> simp [get_ai_data_hybrid, ht]
  · intro X remote hrem hb
    rcases hrem with h | h <;> subst h <;> simp [get_ai_data_hybrid, hb]
  · intro X remote hrem hb
    rcases hrem with h | h <;> subst h <;> simp [get_ai_data_hybrid, hb]
  · intro X B hb
    simp [get_ai_data_hybrid, hb]
  · intro X B hb
    simp [get_ai_data_hybrid, hb]
  · intro remote hrem
    rcases hrem with h | h | ⟨B, h⟩ <;> subst h <;>
      exact ⟨by simp [get_ai_data_hybrid], get_local_topics_ne_nil _⟩

/-- Cache entry with all content fields non-empty. -/
def fullCache : CacheEntry :=
  { topics := ["Anmeldung"], buzzwords := [("Anmeldung Fehler", 3)],
    summary := "Zusammenfassung", topReviews := [sampleRecord],
    bottomReviews := [], date := "2025-01-01" }

/-- Witness for C4 at concrete inputs: verbatim summary and highlights,
verbatim non-empty cached topics and buzzwords on the no-model path, the
second-call-failure path overriding the non-empty cached buzzwords with
the parsed ones, and non-empty local topics on the empty-cache path. -/
theorem resolver_tiers_witness :
    (get_ai_data_hybrid [] (some fullCache) RemoteOutcome.noModel "2025-01-02").2.2.1
      = { summary := fullCache.summary, topReviews := fullCache.topReviews,
          bottomReviews := fullCache.bottomReviews }
    ∧ (get_ai_data_hybrid [] (some fullCache) RemoteOutcome.noModel "2025-01-02").1
      = fullCache.topics
    ∧ (get_ai_data_hybrid [] (some fullCache) RemoteOutcome.noModel "2025-01-02").2.1
      = fullCache.buzzwords
    ∧ (get_ai_data_hybrid [] (some fullCache)
        (RemoteOutcome.failSecond [("Absturz Meldung", 2)]) "2025-01-02").2.1
      = [("Absturz Meldung", 2)]
    ∧ (get_ai_data_hybrid [] none RemoteOutcome.noModel "2025-01-02").1
        = get_local_topics ((([] : List Record).take 50).map (fun r => r.text))
    ∧ get_local_topics ((([] : List Record).take 50).map (fun r => r.text)) ≠ [] := by
  refine ⟨?_, ?_, ?_, ?_, ?_, ?_⟩
  · exact (resolver_tiers [] "2025-01-02").1 fullCache RemoteOutcome.noModel (Or.inl rfl)
  · exact (resolver_tiers [] "2025-01-02").2.1 fullCache RemoteOutcome.noModel
      (Or.inl rfl) (by decide)
  · exact (resolver_tiers [] "2025-01-02").2.2.2.1 fullCache RemoteOutcome.noModel
      (Or.inl rfl) (by decide)
  · exact (resolver_tiers [] "2025-01-02").2.2.2.2.2.1 fullCache
      [("Absturz Meldung", 2)] (by decide)
  · exact ((resolver_tiers [] "2025-01-02").2.2.2.2.2.2.2 RemoteOutcome.noModel
      (Or.inl rfl)).1
  · exact ((resolver_tiers [] "2025-01-02").2.2.2.2.2.2.2 RemoteOutcome.noModel
      (Or.inl rfl)).2

/-- C5: on every path other than full remote success (no-model,
first-call failure, second-call failure) the analysis cache is left
unchanged, and re-running the resolver on the resulting cache state again
leaves it unchanged. -/
theorem resolver_cache_frame (reviews : List Record) (cache : Option CacheEntry)
    (remote : RemoteOutcome) (today : String) :
    (∀ buzz deep, remote ≠ RemoteOutcome.success buzz deep) →
    (get_ai_data_hybrid reviews cache remote today).2.2.2 = cache
    ∧ (get_ai_data_hybrid reviews
        ((get_ai_data_hybrid reviews cache remote today).2.2.2) remote today).2.2.2
      = (get_ai_data_hybrid reviews cache remote today).2.2.2 := by
  intro h
  have h1 : (get_ai_data_hybrid reviews cache remote today).2.2.2 = cache := by
    cases remote with
    | noModel => simp [get_ai_data_hybrid]
    | failFirst => simp [get_ai_data_hybrid]
    | failSecond b => simp [get_ai_data_hybrid]
    | success b d => exact absurd rfl (h b d)
  refine ⟨h1, ?_⟩
  rw [h1, h1]

/-- Witness for C5: the no-model path leaves an empty cache empty. -/
theorem resolver_cache_frame_witness :
    (get_ai_data_hybrid [sampleRecord] none RemoteOutcome.noModel "2025-01-02").2.2.2
      = none :=
  (resolver_cache_frame [sampleRecord] none RemoteOutcome.noModel "2025-01-02"
    (fun _ _ h => RemoteOutcome.noConfusion h)).1

/-- One entry of the iTunes RSS feed as read by `fetch_ios_reviews`
(src/main.py lines 284-291): `hasContent` models whether `content` is a
key of the entry dict (line 285); `content` is `e['content']['label']`;
`rating` is the parsed `e['im:rating']['label']`; `updated` is the
date part of `e.get('updated', {}).get('label', '')` (`none` models a
missing `updated` key, that is the empty date string). -/
structure FeedEntry where
  hasContent : Bool
  content : String
  rating : ℚ
  updated : Option Int
deriving DecidableEq, Repr

/-- Embeds `fetch_ios_reviews` (src/main.py lines 278-293) over an
already-fetched and parsed feed.  The dict passed to `generate_id` at
line 289 carries only `app`, `store` and `text` — no `date` key — so the
id is computed with the empty date string.  A request or parse failure
makes the whole function return the empty list (the caller passes no
entries). -/
def fetch_ios_reviews (hash : String → String) (app_name : String)
    (entries : List FeedEntry) (count : Nat := 20) : List Record :=
  (entries.take count).filterMap (fun e =>
    if e.hasContent then
      some { store := "ios", app := app_name, rating := some e.rating,
             text := e.content, date := e.updated,
             id := generate_id hash
               { text := e.content, date := "", app := app_name, store := "ios" },
             reply := false }
    else none)

theorem mem_fetch_ios (hash : String → String) (app_name : String)
    (entries : List FeedEntry) (count : Nat) (r : Record)
    (h : r ∈ fetch_ios_reviews hash app_name entries count) :
    r.store = "ios" ∧ r.app = app_name
    ∧ r.id = generate_id hash
        { text := r.text, date := "", app := app_name, store := "ios" } := by
  rcases List.mem_filterMap.mp h with ⟨e, _, he⟩
  by_cases hc : e.hasContent
  · simp only [hc, if_true] at he
    have := Option.some.inj he
    subst this
    exact ⟨rfl, rfl, rfl⟩
  · simp [hc] at he

/-- C3: every record produced by iOS ingestion is identified by
`generate_id` applied without the date (the scraped text, empty date, app
and the fixed store); hence two iOS records of the same app with the same
text get the same id regardless of their observed dates and such records
collapse to a single entry under the merge; and, for a collision-free
hash, the stored id differs from `generate_id` applied to the record's
own four fields whenever the record's date is non-empty. -/
theorem fetch_ios_id_ignores_date (hash : String → String) (app_name : String) :
    (∀ (entries1 entries2 : List FeedEntry) (c1 c2 : Nat) (r1 r2 : Record),
      r1 ∈ fetch_ios_reviews hash app_name entries1 c1 →
      r2 ∈ fetch_ios_reviews hash app_name entries2 c2 →
      r1.text = r2.text → r1.id = r2.id)
    ∧ (∀ r1 r2 : Record, r1.id = r2.id →
        merge_fresh [] [r1, r2] = ([(r1.id, r1)], [r1]))
    ∧ (Function.Injective hash →
      ∀ (entries : List FeedEntry) (c : Nat) (r : Record),
        r ∈ fetch_ios_reviews hash app_name entries c →
        r.date ≠ none →
        r.id ≠ generate_id hash
          { text := r.text, date := fmtDate r.date, app := r.app, store := r.store }) := by
  refine ⟨?_, ?_, ?_⟩
  · intro entries1 entries2 c1 c2 r1 r2 h1 h2 htext
    rcases mem_fetch_ios hash app_name entries1 c1 r1 h1 with ⟨_, _, hid1⟩
    rcases mem_fetch_ios hash app_name entries2 c2 r2 h2 with ⟨_, _, hid2⟩
    rw [hid1, hid2, htext]
  · intro r1 r2 hid
    simp [merge_fresh, mergeStep, hasKey, hid]
  · intro hinj entries c r hmem hdate heq
    rcases mem_fetch_ios hash app_name entries c r hmem with ⟨hs, ha, hid⟩
    rw [hid] at heq
    have hu := hinj heq
    rw [ha, hs] at hu
    have hd := congrArg String.data hu
    simp only [unique_string, String.data_append] at hd
    have hfd : ("" : String).data = (fmtDate r.date).data :=
      data_cancel_left (data_cancel_right (data_cancel_right hd))
    have hstr : ("" : String) = fmtDate r.date := string_eq_of_data_eq hfd
    cases hdr : r.date with
    | none => exact hdate hdr
    | some d =>
      rw [hdr] at hstr
      exact fmtDate_some_ne_empty d hstr.symm

/-- Feed entry used by the C3 witness. -/
def iosEntryA : FeedEntry :=
  { hasContent := true, content := "Tolle Inhalte jeden Tag", rating := 5,
    updated := some 20100 }

/-- Same text as `iosEntryA` but a different observed date and rating. -/
def iosEntryB : FeedEntry :=
  { hasContent := true, content := "Tolle Inhalte jeden Tag", rating := 4,
    updated := some 20200 }

/-- Record scraped from `iosEntryA`. -/
def iosRecA : Record :=
  { store := "ios", app := "Nordkurier", rating := some 5,
    text := "Tolle Inhalte jeden Tag", date := some 20100,
    id := generate_id id
      { text := "Tolle Inhalte jeden Tag", date := "", app := "Nordkurier",
        store := "ios" },
    reply := false }

/-- Record scraped from `iosEntryB`: same text and id, different date. -/
def iosRecB : Record :=
  { iosRecA with rating := some 4, date := some 20200 }

/-- Witness for C3 at concrete inputs. -/
theorem fetch_ios_id_ignores_date_witness :
    iosRecA.id = iosRecB.id
    ∧ merge_fresh [] [iosRecA, iosRecB] = ([(iosRecA.id, iosRecA)], [iosRecA])
    ∧ iosRecA.id ≠ generate_id id
        { text := iosRecA.text, date := fmtDate iosRecA.date,
          app := iosRecA.app, store := iosRecA.store } := by
  have hmemA : iosRecA ∈ fetch_ios_reviews id "Nordkurier" [iosEntryA] 20 :=
    List.mem_filterMap.mpr ⟨iosEntryA,
      by rw [List.take_of_length_le (by simp)]; exact List.mem_singleton_self _, rfl⟩
  have hmemB : iosRecB ∈ fetch_ios_reviews id "Nordkurier" [iosEntryB] 20 :=
    List.mem_filterMap.mpr ⟨iosEntryB,
      by rw [List.take_of_length_le (by simp)]; exact List.mem_singleton_self _, rfl⟩
  have hid : iosRecA.id = iosRecB.id :=
    (fetch_ios_id_ignores_date id "Nordkurier").1 [iosEntryA] [iosEntryB] 20 20
      iosRecA iosRecB hmemA hmemB rfl
  refine ⟨hid, ?_, ?_⟩
  · exact (fetch_ios_id_ignores_date id "Nordkurier").2.1 iosRecA iosRecB hid
  · exact (fetch_ios_id_ignores_date id "Nordkurier").2.2 Function.injective_id
      [iosEntryA] 20 iosRecA hmemA (by simp [iosRecA])

/-- Modelled from the spec: the qualification guard of the Embedding and
Clustering Engine (spec 4.4) — only records with text longer than a
minimum length threshold participate.  The engine itself (`extract_topics`)
is not present under src/; src/main.py only imports its dependencies
(SentenceTransformer, KMeans, cosine similarity) and initializes the
embedder. -/
def qualifying (minLen : Nat) (records : List Record) : List Record :=
  records.filter (fun r => minLen < r.text.length)

/-- Modelled from the spec: the representative of each of the k clusters
of a K-means partition of the n qualifying records.  The embedding and
K-means assignment is abstracted as an arbitrary assignment function
(cluster of record i is `assign i % k`, a partition of the indices by
construction); the nearest-to-centroid selection is abstracted as picking
one member of each non-empty cluster. -/
def rep_indices (assign : Nat → Nat) (n k : Nat) : List Nat :=
  (List.range k).filterMap (fun j =>
    ((List.range n).filter (fun i => assign i % k = j)).head?)

/-- Modelled from the spec: `extract_topics(records, k)` (spec 4.4) — drop
short texts, return an empty result below the hard floor of 5 qualifying
records, reduce `k` to the qualifying count, cluster, and return one
representative record per cluster. -/
def extract_topics (assign : Nat → Nat) (minLen : Nat) (records : List Record)
    (k : Nat) : List Record :=
  let q := qualifying minLen records
  if q.length < 5 then []
  else (rep_indices assign q.length (min k q.length)).filterMap (fun i => q.get? i)

theorem rep_indices_nodup (assign : Nat → Nat) (n k : Nat) :
    (rep_indices assign n k).Nodup := by
  apply List.Nodup.filterMap _ (List.nodup_range k)
  intro a b c hca hcb
  have ha : c ∈ ((List.range n).filter (fun i => assign i % k = a)) :=
    List.mem_of_mem_head? (hca ▸ rfl)
  have hb : c ∈ ((List.range n).filter (fun i => assign i % k = b)) :=
    List.mem_of_mem_head? (hcb ▸ rfl)
  have ha2 := of_decide_eq_true (List.mem_filter.mp ha).2
  have hb2 := of_decide_eq_true (List.mem_filter.mp hb).2
  rw [← ha2, ← hb2]

theorem rep_indices_lt (assign : Nat → Nat) (n k : Nat) :
    ∀ i ∈ rep_indices assign n k, i < n := by
  intro i hi
  rcases List.mem_filterMap.mp hi with ⟨j, _, hj⟩
  have : i ∈ ((List.range n).filter (fun x => assign x % k = j)) :=
    List.mem_of_mem_head? (hj ▸ rfl)
  exact List.mem_range.mp (List.mem_filter.mp this).1

/-- C2: topic extraction returns at most `min k (qualifying count)`
representatives, returns the empty list whenever fewer than 5 records
qualify (so k = 5 with 3 qualifying records yields no error and at most 3
— in fact zero — representatives), picks representatives at pairwise
distinct positions of the qualifying list (no duplicates, one per
cluster), and every representative is a qualifying record. -/
theorem extract_topics_bounds (assign : Nat → Nat) (minLen : Nat)
    (records : List Record) (k : Nat) :
    (extract_topics assign minLen records k).length
        ≤ min k (qualifying minLen records).length
    ∧ ((qualifying minLen records).length < 5 →
        extract_topics assign minLen records k = [])
    ∧ (rep_indices assign (qualifying minLen records).length
        (min k (qualifying minLen records).length)).Nodup
    ∧ (∀ i ∈ rep_indices assign (qualifying minLen records).length
        (min k (qualifying minLen records).length),
        i < (qualifying minLen records).length)
    ∧ (∀ r ∈ extract_topics assign minLen records k,
        r ∈ qualifying minLen records) := by
  refine ⟨?_, ?_, rep_indices_nodup _ _ _, rep_indices_lt _ _ _, ?_⟩
  · by_cases h5 : (qualifying minLen records).length < 5
    · simp [extract_topics, h5]
    · simp only [extract_topics, h5, if_false]
      calc ((rep_indices assign (qualifying minLen records).length
              (min k (qualifying minLen records).length)).filterMap
              (fun i => (qualifying minLen records).get? i)).length
          ≤ (rep_indices assign (qualifying minLen records).length
              (min k (qualifying minLen records).length)).length :=
            List.length_filterMap_le _ _
        _ ≤ (List.range (min k (qualifying minLen records).length)).length :=
            List.length_filterMap_le _ _
        _ = min k (qualifying minLen records).length := List.length_range _
  · intro h5
    simp [extract_topics, h5]
  · intro r hr
    by_cases h5 : (qualifying minLen records).length < 5
    · simp [extract_topics, h5] at hr
    · simp only [extract_topics, h5, if_false] at hr
      rcases List.mem_filterMap.mp hr with ⟨i, _, hi⟩
      exact List.get?_mem hi

/-- Three qualifying records for the C2 witness. -/
def recs3 : List Record :=
  [sampleRecord, { sampleRecord with id := "fp2" }, { sampleRecord with id := "fp3" }]

/-- Witness for C2: requesting 5 topics from 3 qualifying records yields
the empty list (no error, at most 3 representatives). -/
theorem extract_topics_bounds_witness :
    (qualifying 3 recs3).length < 5
    ∧ extract_topics (fun i => i) 3 recs3 5 = [] := by
  constructor
  · decide
  · exact (extract_topics_bounds (fun i => i) 3 recs3 5).2.1 (by decide)
